import Mathlib

/-!
Shallow embedding of the jarray array engine (src/src/jarray.c, src/inc/jarray.h).

Modelling conventions:
* A C pointer that may be NULL is an `Option`; a NULL container argument is `none`.
* The process-wide `last_error_trace` is threaded explicitly: operations take the
  incoming trace and return the outgoing one (the message text and the
  `ret_source` back-pointer are not modelled).
* The backing store `_data` is `Option (List α)`: `none` models a NULL data
  pointer, `some d` a buffer whose first `_length` slots hold the elements `d`.
  Capacity slack beyond `_length` is not represented.
* `malloc`/`realloc` success is an explicit `alloc : Bool` parameter on the
  operations that allocate.
* Only the `JARRAY_TYPE_VALUE` element kind is modelled: `memcpy_elem` is then a
  plain element copy, which on lists is `++` / element insertion.
* The capacity multiplier is always `1.5f` (set by every constructor and never
  changed). `(size_t)((float)c * 1.5f)` is modelled as `3 * c / 2` and
  `(size_t)((float)c / 1.5f)` as `2 * c / 3`; both agree exactly with the float
  computation for the capacities of interest (below 2^22, where the float
  arithmetic is exact).
* Operations whose C code dereferences a NULL pointer return an outer `Option`
  with `none` for that undefined behaviour.
-/

namespace JArraySpec

/-- JARRAY_ERROR taxonomy from inc/jarray.h. -/
inductive JARRAY_ERROR where
  | noError
  | indexOutOfBound
  | uninitialized
  | dataNull
  | printElementCallbackUninit
  | elementToStringCallbackUninit
  | empty
  | invalidArgument
  | compareCallbackUninit
  | isEqualCallbackUninit
  | elementNotFound
  | unimplementedFunction
  deriving DecidableEq, Repr

/-- The process-wide `last_error_trace` (JARRAY_RETURN): outcome flag and error
kind. The formatted message and the `ret_source` container pointer are omitted. -/
structure ErrorTrace where
  has_error : Bool
  error_code : JARRAY_ERROR
  deriving DecidableEq, Repr

/-- `create_return_error`: mark the trace as holding this call's error. -/
def create_return_error (e : JARRAY_ERROR) : ErrorTrace :=
  { has_error := true, error_code := e }

/-- `reset_error_trace`: mark the trace as ok ("no error"). -/
def reset_error_trace : ErrorTrace :=
  { has_error := false, error_code := .noError }

/-- The capability table (JARRAY_USER_CALLBACK_IMPLEMENTATION); only the slots
the modelled operations read. `none` models a NULL function pointer. -/
structure Callbacks (α : Type) where
  compare : Option (α → α → Int)
  is_equal : Option (α → α → Bool)
  element_to_string : Option (α → Option String)

/-- The JARRAY container. `_data`, `_length`, `_capacity`, `_min_alloc` and
`_elem_size` mirror the C fields; the capacity multiplier is fixed at 1.5. -/
structure JARRAY (α : Type) where
  _data : Option (List α)
  _length : Nat
  _capacity : Nat
  _min_alloc : Nat
  _elem_size : Nat
  user_callbacks : Callbacks α

/-- The stored elements (the first `_length` slots of the buffer). -/
def JARRAY.elems (s : JARRAY α) : List α := s._data.getD []

/-! ### Capacity growth arithmetic -/

/-- One step of the growth loop in `array_add`/`array_add_at`/`array_fill`:
`next = (size_t)((float)new_cap * multiplier); if (next <= new_cap) next = new_cap + 1`. -/
def growStep (cur : Nat) : Nat :=
  let next := 3 * cur / 2
  if next ≤ cur then cur + 1 else next

theorem lt_growStep (cur : Nat) : cur < growStep cur := by
  have h : growStep cur = if 3 * cur / 2 ≤ cur then cur + 1 else 3 * cur / 2 := rfl
  rw [h]; split <;> omega

/-- `while (new_cap < target) { ... }` growth loop. -/
def growLoop (target cur : Nat) : Nat :=
  if cur < target then growLoop target (growStep cur) else cur
termination_by target - cur
decreasing_by
  have := lt_growStep cur
  omega

/-- New capacity computed by `array_add` / `array_add_at` / `array_fill` when
the store must grow to hold `target` elements:
`new_cap = cap > 0 ? (size_t)((float)cap * mult) : 1; if (new_cap <= cap) new_cap = cap + 1;`
followed by the growth loop. -/
def array_grow_newcap (cap target : Nat) : Nat :=
  let nc0 := if cap > 0 then 3 * cap / 2 else 1
  let nc1 := if nc0 ≤ cap then cap + 1 else nc0
  growLoop target nc1

/-- One step of the growth loop in `array_add_all`, which rounds the float
product up instead of down (`if ((float)next < (float)new_cap * mult) next++`),
i.e. takes the ceiling, with the same anti-stall guard. -/
def addAllGrowStep (cur : Nat) : Nat :=
  let next := (3 * cur + 1) / 2
  if next ≤ cur then cur + 1 else next

theorem lt_addAllGrowStep (cur : Nat) : cur < addAllGrowStep cur := by
  have h : addAllGrowStep cur
      = if (3 * cur + 1) / 2 ≤ cur then cur + 1 else (3 * cur + 1) / 2 := rfl
  rw [h]; split <;> omega

def addAllGrowLoop (target cur : Nat) : Nat :=
  if cur < target then addAllGrowLoop target (addAllGrowStep cur) else cur
termination_by target - cur
decreasing_by
  have := lt_addAllGrowStep cur
  omega

/-- New capacity computed by `array_add_all` for `need = _length + count`
elements (initial value is the rounded-up product, no `cap + 1` guard). -/
def array_add_all_newcap (cap need : Nat) : Nat :=
  addAllGrowLoop need (if cap > 0 then (3 * cap + 1) / 2 else 1)

/-! ### Buffer/growth engine operations -/

variable {α : Type}

/-- `array_at`. -/
def array_at (self : Option (JARRAY α)) (index : Nat) (_t : ErrorTrace) :
    Option α × ErrorTrace :=
  match self with
  | none => (none, create_return_error .invalidArgument)
  | some s =>
    match s._data with
    | none => (none, create_return_error .dataNull)
    | some d =>
      if index ≥ s._length then (none, create_return_error .indexOutOfBound)
      else (d[index]?, reset_error_trace)

/-- `array_add`: append one element, growing the store if needed.
`alloc` models the success of the `realloc` on the growth path. -/
def array_add (alloc : Bool) (self : Option (JARRAY α)) (elem : Option α)
    (_t : ErrorTrace) : Option (JARRAY α) × ErrorTrace :=
  match self with
  | none => (none, create_return_error .invalidArgument)
  | some s =>
    match elem with
    | none => (some s, create_return_error .invalidArgument)
    | some e =>
      if s._length + 1 > s._capacity then
        if alloc then
          (some { s with _capacity := array_grow_newcap s._capacity (s._length + 1),
                         _data := some (s.elems ++ [e]),
                         _length := s._length + 1 }, reset_error_trace)
        else (some s, create_return_error .dataNull)
      else
        (some { s with _data := some (s.elems ++ [e]),
                       _length := s._length + 1 }, reset_error_trace)

/-- `array_add_at`: insert one element at `index ≤ _length`
(block move right, then copy in). -/
def array_add_at (alloc : Bool) (self : Option (JARRAY α)) (index : Nat)
    (elem : Option α) (_t : ErrorTrace) : Option (JARRAY α) × ErrorTrace :=
  match self with
  | none => (none, create_return_error .invalidArgument)
  | some s =>
    match elem with
    | none => (some s, create_return_error .invalidArgument)
    | some e =>
      if index > s._length then (some s, create_return_error .indexOutOfBound)
      else if s._length + 1 > s._capacity then
        if alloc then
          (some { s with _capacity := array_grow_newcap s._capacity (s._length + 1),
                         _data := some (s.elems.take index ++ e :: s.elems.drop index),
                         _length := s._length + 1 }, reset_error_trace)
        else (some s, create_return_error .dataNull)
      else
        (some { s with _data := some (s.elems.take index ++ e :: s.elems.drop index),
                       _length := s._length + 1 }, reset_error_trace)

/-- `array_remove_at`: shift left over `index`, decrement the length; free the
store entirely at length 0, otherwise possibly shrink to
`max(cap/1.5, _min_alloc)`. A failed shrink `realloc` is tolerated (old buffer
kept). -/
def array_remove_at (alloc : Bool) (self : Option (JARRAY α)) (index : Nat)
    (_t : ErrorTrace) : Option (JARRAY α) × ErrorTrace :=
  match self with
  | none => (none, create_return_error .invalidArgument)
  | some s =>
    if index ≥ s._length then (some s, create_return_error .indexOutOfBound)
    else
      let d' := s.elems.take index ++ s.elems.drop (index + 1)
      let len' := s._length - 1
      if len' = 0 then
        (some { s with _data := none, _length := 0, _capacity := 0 }, reset_error_trace)
      else
        let new_cap := max (2 * s._capacity / 3) s._min_alloc
        if len' ≤ new_cap ∧ len' < s._capacity / 2 then
          if alloc then
            (some { s with _data := some d', _length := len', _capacity := new_cap },
             reset_error_trace)
          else
            (some { s with _data := some d', _length := len' }, reset_error_trace)
        else
          (some { s with _data := some d', _length := len' }, reset_error_trace)

/-- `array_add_all`: bulk append `count` elements from `data`. The C checks
`!data || count == 0` before touching `self`, but never null-checks `self`
itself: a NULL container with usable data is dereferenced (outer `none`).
Note that on the growth path the C stores the new `_capacity` *before*
attempting the `realloc`. -/
def array_add_all (alloc : Bool) (self : Option (JARRAY α))
    (data : Option (List α)) (count : Nat) (_t : ErrorTrace) :
    Option (Option (JARRAY α) × ErrorTrace) :=
  match data with
  | none => some (self, create_return_error .invalidArgument)
  | some d =>
    if count = 0 then some (self, create_return_error .invalidArgument)
    else match self with
    | none => none
    | some s =>
      if s._length + count > s._capacity then
        let new_cap := array_add_all_newcap s._capacity (s._length + count)
        if alloc then
          some (some { s with _capacity := new_cap,
                              _data := some (s.elems ++ d.take count),
                              _length := s._length + count }, reset_error_trace)
        else
          some (some { s with _capacity := new_cap }, create_return_error .dataNull)
      else
        some (some { s with _data := some (s.elems ++ d.take count),
                            _length := s._length + count }, reset_error_trace)

/-- `array_reserve`: set the reservation floor, growing the store exactly to
`max(capacity, _length)` if needed. -/
def array_reserve (alloc : Bool) (self : Option (JARRAY α)) (capacity : Nat)
    (_t : ErrorTrace) : Option (JARRAY α) × ErrorTrace :=
  match self with
  | none => (none, create_return_error .invalidArgument)
  | some s =>
    if capacity = 0 then (some s, create_return_error .invalidArgument)
    else
      let required := max capacity s._length
      if required ≤ s._capacity then
        (some { s with _min_alloc := capacity }, reset_error_trace)
      else if alloc then
        (some { s with _capacity := required, _min_alloc := capacity,
                       _data := some s.elems }, reset_error_trace)
      else (some s, create_return_error .dataNull)

/-- `array_set`: NULL container, then empty, then index bound — but the
element pointer is never null-checked: a NULL `elem` flows straight into
`memcpy_elem`, which reads from it (outer `none` for that undefined
behaviour, with no error recorded). -/
def array_set (self : Option (JARRAY α)) (index : Nat) (elem : Option α)
    (_t : ErrorTrace) : Option (Option (JARRAY α) × ErrorTrace) :=
  match self with
  | none => some (none, create_return_error .invalidArgument)
  | some s =>
    if s._length = 0 then some (some s, create_return_error .empty)
    else if index ≥ s._length then
      some (some s, create_return_error .invalidArgument)
    else
      match elem with
      | none => none
      | some e =>
        some (some { s with _data := some (s.elems.set index e) },
          reset_error_trace)

/-- `array_length`: `if (!self)` records InvalidArgument and returns 0; the
non-NULL path returns `_length` without touching the status record (no reset
on success). -/
def array_length (self : Option (JARRAY α)) (t : ErrorTrace) :
    Nat × ErrorTrace :=
  match self with
  | none => (0, create_return_error .invalidArgument)
  | some s => (s._length, t)

/-- `array_free`: a NULL container is silently ignored — no status write, no
InvalidArgument; otherwise the buffer is released (pointees first for the
pointer kind) and all scalar fields and both callback tables are zeroed. The
status record is never touched on either path. -/
def array_free (self : Option (JARRAY α)) (t : ErrorTrace) :
    Option (JARRAY α) × ErrorTrace :=
  match self with
  | none => (none, t)
  | some _ =>
    (some { _data := none, _length := 0, _capacity := 0, _min_alloc := 0,
            _elem_size := 0,
            user_callbacks := { compare := none, is_equal := none,
                                element_to_string := none } }, t)

/-- `array_shift`: drop slot 0 and compact left. Frees the store at length 0;
otherwise shrinks whenever `len' ≤ max(cap/1.5, _min_alloc)` (the new
`_capacity` is stored before the `realloc` and kept even if it fails, so the
model needs no alloc flag: the element contents are unchanged either way). -/
def array_shift (self : Option (JARRAY α)) (_t : ErrorTrace) :
    Option (JARRAY α) × ErrorTrace :=
  match self with
  | none => (none, create_return_error .invalidArgument)
  | some s =>
    if s._length = 0 then (some s, create_return_error .invalidArgument)
    else
      let d' := s.elems.drop 1
      let len' := s._length - 1
      if len' = 0 then
        (some { s with _data := none, _length := 0, _capacity := 0 }, reset_error_trace)
      else
        let new_cap := max (2 * s._capacity / 3) s._min_alloc
        if len' ≤ new_cap then
          (some { s with _data := some d', _length := len', _capacity := new_cap },
           reset_error_trace)
        else
          (some { s with _data := some d', _length := len' }, reset_error_trace)

/-- `array_shift_right`: grow by one if full, block-move right, then
`array_set(self, 0, elem)` (which always succeeds here and resets the trace). -/
def array_shift_right (alloc : Bool) (self : Option (JARRAY α)) (elem : Option α)
    (_t : ErrorTrace) : Option (JARRAY α) × ErrorTrace :=
  match self with
  | none => (none, create_return_error .invalidArgument)
  | some s =>
    match elem with
    | none => (some s, create_return_error .invalidArgument)
    | some e =>
      if s._length ≥ s._capacity then
        let nc0 := if s._capacity > 0 then 3 * s._capacity / 2 else 1
        let new_cap := if nc0 ≤ s._capacity then s._capacity + 1 else nc0
        if alloc then
          (some { s with _capacity := new_cap, _data := some (e :: s.elems),
                         _length := s._length + 1 }, reset_error_trace)
        else (some s, create_return_error .dataNull)
      else
        (some { s with _data := some (e :: s.elems), _length := s._length + 1 },
         reset_error_trace)

/-- `array_fill`: set every slot in `[start, fin]` to `elem` (`fin` is the C
parameter `end`, a Lean keyword), growing the container to `fin + 1` slots
first when `fin ≥ _length`. Note the argument validation order: range checks
come before the NULL-element check. The write loop (`array_set` per index) is
modelled by its resulting list. -/
def array_fill (alloc : Bool) (self : Option (JARRAY α)) (elem : Option α)
    (start fin : Nat) (_t : ErrorTrace) : Option (JARRAY α) × ErrorTrace :=
  match self with
  | none => (none, create_return_error .invalidArgument)
  | some s =>
    if start > fin then (some s, create_return_error .invalidArgument)
    else if start ≥ s._length then (some s, create_return_error .invalidArgument)
    else match elem with
    | none => (some s, create_return_error .invalidArgument)
    | some e =>
      let d' := s.elems.take start ++ List.replicate (fin + 1 - start) e
                  ++ s.elems.drop (fin + 1)
      if fin ≥ s._length then
        if fin + 1 > s._capacity then
          if alloc then
            (some { s with _capacity := array_grow_newcap s._capacity (fin + 1),
                           _length := fin + 1, _data := some d' }, reset_error_trace)
          else (some s, create_return_error .dataNull)
        else
          (some { s with _length := fin + 1, _data := some d' }, reset_error_trace)
      else
        (some { s with _data := some d' }, reset_error_trace)

/-! ### Search and predicate operations -/

/-- `array_filter`: two passes (count, then copy) into a freshly allocated
container that inherits elem size and callback tables; `_min_alloc` and
`_capacity` are both set to the match count. There is no empty-container
check and the `malloc` result is not checked (`alloc = false` leaves the new
container's `_data` NULL). On a NULL container the C returns `*self`
(dereferencing NULL); on a NULL predicate it returns `*self`. -/
def array_filter (alloc : Bool) (self : Option (JARRAY α))
    (predicate : Option (α → Bool)) (_t : ErrorTrace) :
    Option (JARRAY α) × ErrorTrace :=
  match self with
  | none => (none, create_return_error .invalidArgument)
  | some s =>
    match predicate with
    | none => (some s, create_return_error .invalidArgument)
    | some p =>
      let kept := s.elems.filter p
      (some { _data := if alloc then some kept else none,
              _length := kept.length,
              _capacity := kept.length,
              _min_alloc := kept.length,
              _elem_size := s._elem_size,
              user_callbacks := s.user_callbacks }, reset_error_trace)

/-- `array_any`: NULL container, then empty, then NULL predicate. Both return
paths of the scan (`return true` on a match, `return false` after the loop)
leave `last_error_trace` untouched. -/
def array_any (self : Option (JARRAY α)) (predicate : Option (α → Bool))
    (t : ErrorTrace) : Bool × ErrorTrace :=
  match self with
  | none => (false, create_return_error .invalidArgument)
  | some s =>
    if s._length = 0 then (false, create_return_error .empty)
    else match predicate with
    | none => (false, create_return_error .invalidArgument)
    | some p => (s.elems.any p, t)

/-- `array_find_first`: NULL container, then NULL predicate, then empty
(note: the predicate check precedes the empty check here, unlike `array_any`). -/
def array_find_first (self : Option (JARRAY α)) (predicate : Option (α → Bool))
    (_t : ErrorTrace) : Option α × ErrorTrace :=
  match self with
  | none => (none, create_return_error .invalidArgument)
  | some s =>
    match predicate with
    | none => (none, create_return_error .invalidArgument)
    | some p =>
      if s._length = 0 then (none, create_return_error .empty)
      else match s.elems.find? p with
      | some e => (some e, reset_error_trace)
      | none => (none, create_return_error .elementNotFound)

/-- `array_find_first_index`: on a NULL container the C records
InvalidArgument but then executes `return self->_length`, dereferencing the
NULL pointer (outer `none`). The sentinel for the other failure paths is
`_length`. -/
def array_find_first_index (self : Option (JARRAY α))
    (predicate : Option (α → Bool)) (_t : ErrorTrace) :
    Option (Nat × ErrorTrace) :=
  match self with
  | none => none
  | some s =>
    some <|
      if s._length = 0 then (s._length, create_return_error .empty)
      else match predicate with
      | none => (s._length, create_return_error .invalidArgument)
      | some p =>
        match s.elems.findIdx? p with
        | some i => (i, reset_error_trace)
        | none => (s._length, create_return_error .elementNotFound)

/-- `array_contains`: requires the `is_equal` capability; resets the trace
*before* scanning, then short-circuits on the first match. -/
def array_contains (self : Option (JARRAY α)) (elem : Option α)
    (_t : ErrorTrace) : Bool × ErrorTrace :=
  match self with
  | none => (false, create_return_error .invalidArgument)
  | some s =>
    match elem with
    | none => (false, create_return_error .invalidArgument)
    | some e =>
      if s._length = 0 then (false, create_return_error .empty)
      else match s.user_callbacks.is_equal with
      | none => (false, create_return_error .isEqualCallbackUninit)
      | some eq => (s.elems.any fun x => eq x e, reset_error_trace)

/-- `array_indexes_of`: mallocs a buffer of `_length` slots of indices, stores
matching index number `k` (0-based) at slot `k + 1` and the match count at
slot 0. The returned pair's `Bool` records whether some store landed at a slot
`≥ _length`, i.e. past the end of the malloc'd buffer (the highest slot
written is `count`, so this happens exactly when every element matches). -/
def array_indexes_of (alloc : Bool) (self : Option (JARRAY α)) (elem : α)
    (_t : ErrorTrace) : (Option (List Nat) × Bool) × ErrorTrace :=
  match self with
  | none => ((none, false), create_return_error .invalidArgument)
  | some s =>
    if s._length = 0 then ((none, false), create_return_error .empty)
    else match s.user_callbacks.is_equal with
    | none => ((none, false), create_return_error .isEqualCallbackUninit)
    | some eq =>
      if alloc then
        let idxs := (s.elems.enum.filter fun p => eq p.2 elem).map Prod.fst
        let count := idxs.length
        if count = 0 then ((none, false), create_return_error .elementNotFound)
        else ((some (count :: idxs), decide (s._length ≤ count)), reset_error_trace)
      else ((none, false), create_return_error .dataNull)

/-! ### Transform operations -/

/-- `array_clone`: rejects an empty container, then copies the buffer. The C
copies `max(_length, _min_alloc)` slots; slots beyond `_length` are capacity
slack, which this model does not represent, so the copied contents are the
stored elements. All scalar fields and both callback tables are inherited. -/
def array_clone (alloc : Bool) (self : Option (JARRAY α)) (_t : ErrorTrace) :
    Option (JARRAY α) × ErrorTrace :=
  match self with
  | none => (none, create_return_error .invalidArgument)
  | some s =>
    if s._length = 0 then (some s, create_return_error .empty)
    else if alloc then
      (some { s with _data := some s.elems }, reset_error_trace)
    else (some s, create_return_error .dataNull)

/-- The reduce loop: each step calls the reducer, which may return NULL
(`none`), aborting with InvalidArgument; otherwise the fresh accumulator is
copied in and the loop continues. -/
def reduce_loop (f : α → α → Option α) : List α → α → Option α × ErrorTrace
  | [], acc => (some acc, reset_error_trace)
  | x :: xs, acc =>
    match f acc x with
    | none => (none, create_return_error .invalidArgument)
    | some acc' => reduce_loop f xs acc'

/-- `array_reduce`: left fold. Without an initial value the first element
seeds the accumulator; a container with `_length > 0` but an empty/NULL buffer
would read unowned memory (outer `none`). `alloc` models the accumulator
malloc. -/
def array_reduce (alloc : Bool) (self : Option (JARRAY α))
    (reducer : Option (α → α → Option α)) (initial : Option α)
    (_t : ErrorTrace) : Option (Option α × ErrorTrace) :=
  match self with
  | none => some (none, create_return_error .invalidArgument)
  | some s =>
    match reducer with
    | none => some (none, create_return_error .invalidArgument)
    | some f =>
      if s._length = 0 then some (none, create_return_error .empty)
      else if alloc then
        match initial with
        | some v => some (reduce_loop f s.elems v)
        | none =>
          match s.elems with
          | [] => none
          | x :: xs => some (reduce_loop f xs x)
      else some (none, create_return_error .dataNull)

/-- `array_join`: stringify every element (a NULL result aborts with
DataNull), then concatenate with the separator (a NULL separator acts as "").
`alloc` models the intermediate buffer mallocs. -/
def array_join (alloc : Bool) (self : Option (JARRAY α))
    (separator : Option String) (_t : ErrorTrace) :
    Option String × ErrorTrace :=
  match self with
  | none => (none, create_return_error .invalidArgument)
  | some s =>
    if s._length = 0 then (none, create_return_error .empty)
    else match s.user_callbacks.element_to_string with
    | none => (none, create_return_error .elementToStringCallbackUninit)
    | some f =>
      if alloc then
        match s.elems.mapM f with
        | none => (none, create_return_error .dataNull)
        | some strs =>
          (some (String.intercalate (separator.getD "") strs), reset_error_trace)
      else (none, create_return_error .dataNull)

/-- `array_reverse`: in-place reversal by swapping `i` and `n-1-i` through a
temp element (`alloc` models the temp malloc). -/
def array_reverse (alloc : Bool) (self : Option (JARRAY α)) (_t : ErrorTrace) :
    Option (JARRAY α) × ErrorTrace :=
  match self with
  | none => (none, create_return_error .invalidArgument)
  | some s =>
    if s._length = 0 then (some s, create_return_error .empty)
    else if alloc then
      (some { s with _data := some s.elems.reverse }, reset_error_trace)
    else (some s, create_return_error .dataNull)

/-- The buffer written by `array_concat` into a freshly allocated store of
`len1 + len2` slots, with uninitialized slots as `none`:
`memcpy_elem(arr1, dest, arr1->_data, 1)` writes ONE element of `arr1`, then
`memcpy_elem(arr2, dest + len1*size, arr2->_data, len2)` writes all of `arr2`
at offset `len1`; slots `1 .. len1-1` are never written. -/
def array_concat_cells (d1 : List α) (len1 : Nat) (d2 : List α) :
    List (Option α) :=
  (d1.take 1).map some ++ List.replicate (len1 - 1) none ++ d2.map some

/-- The container produced by `array_concat` (cells may be uninitialized, so
the element type is `Option α`; the callback tables, inherited from `arr1`,
are not carried over into this result record). -/
structure ConcatResult (α : Type) where
  cells : List (Option α)
  _length : Nat
  _capacity : Nat
  _min_alloc : Nat
  _elem_size : Nat
  deriving DecidableEq, Repr

/-- `array_concat`: requires equal element widths; allocates `len1 + len2`
slots and copies as in `array_concat_cells`. On the failure paths the C
returns `*arr1` (undefined for a NULL `arr1`); the model returns no result
record there. -/
def array_concat (alloc : Bool) (arr1 arr2 : Option (JARRAY α))
    (_t : ErrorTrace) : Option (ConcatResult α) × ErrorTrace :=
  match arr1 with
  | none => (none, create_return_error .invalidArgument)
  | some a1 =>
    match arr2 with
    | none => (none, create_return_error .invalidArgument)
    | some a2 =>
      if a1._elem_size ≠ a2._elem_size then
        (none, create_return_error .invalidArgument)
      else if alloc then
        let len := a1._length + a2._length
        (some { cells := array_concat_cells a1.elems a1._length a2.elems,
                _length := len, _capacity := len, _min_alloc := len,
                _elem_size := a1._elem_size }, reset_error_trace)
      else (none, create_return_error .dataNull)

/-! ### Sort strategies -/

inductive SORT_METHOD where
  | QSORT
  | BUBBLE_SORT
  | INSERTION_SORT
  | SELECTION_SORT
  deriving DecidableEq, Repr

/-- Inner j-loop of BUBBLE_SORT: one pass performing `k` adjacent
compare-and-swap steps from the front of the working copy. -/
def bubble_pass (c : α → α → Int) : Nat → List α → List α
  | 0, l => l
  | _ + 1, [] => []
  | _ + 1, [x] => [x]
  | k + 1, x :: y :: rest =>
    if c x y > 0 then y :: bubble_pass c k (x :: rest)
    else x :: bubble_pass c k (y :: rest)

/-- Outer i-loop of BUBBLE_SORT (`for i < n-1`, inner bound `n-i-1`): passes
with bounds `n-1, n-2, …, 1`. -/
def bubble_iter (c : α → α → Int) : Nat → List α → List α
  | 0, l => l
  | b + 1, l => bubble_iter c b (bubble_pass c (b + 1) l)

def bubble_sort (c : α → α → Int) (l : List α) : List α :=
  bubble_iter c (l.length - 1) l

/-- INSERTION_SORT inner while-loop: scanning the sorted prefix from its right
end, shift every element with `compare(elem, key) > 0` one slot right, then
store the key in the freed slot. -/
def insert_from_right (c : α → α → Int) (key : α) (l : List α) : List α :=
  match l with
  | [] => [key]
  | y :: ys =>
    if c ((y :: ys).getLast (by simp)) key > 0 then
      insert_from_right c key (y :: ys).dropLast ++ [(y :: ys).getLast (by simp)]
    else (y :: ys) ++ [key]
termination_by l.length
decreasing_by
  simp [List.length_dropLast]

/-- INSERTION_SORT outer loop: for `i = 1 .. n-1`, insert `a[i]` into the
sorted prefix `a[0..i)` (folding from an empty prefix performs the same
insertions, starting with `a[0]` into the empty prefix). -/
def insertion_sort (c : α → α → Int) (l : List α) : List α :=
  l.foldl (fun acc key => insert_from_right c key acc) []

/-- SELECTION_SORT inner j-loop over the tail of the unsorted suffix: updates
`min_idx` on strict `compare < 0`, so it returns the index and element of the
first minimum. Index `0` means the suffix head (position `i`); index `j + 1`
is position `i + j + 1`. -/
def sel_min (c : α → α → Int) : List α → α → Nat → Nat → Nat × α
  | [], m, _, mi => (mi, m)
  | y :: ys, m, j, mi =>
    if c y m < 0 then sel_min c ys y (j + 1) (j + 1)
    else sel_min c ys m (j + 1) mi

/-- One outer iteration of SELECTION_SORT on the suffix `x :: xs`: find the
first minimum, then one swap of positions `i` and `min_idx` if they differ. -/
def selection_step (c : α → α → Int) (x : α) (xs : List α) : α × List α :=
  let p := sel_min c xs x 0 0
  if p.1 = 0 then (x, xs) else (p.2, xs.set (p.1 - 1) x)

/-- SELECTION_SORT outer i-loop (`for i < n-1`): each iteration settles the
front of the remaining suffix; the fuel is the iteration count `n-1`. -/
def selection_sort_aux (c : α → α → Int) : Nat → List α → List α
  | 0, l => l
  | _ + 1, [] => []
  | fuel + 1, x :: xs =>
    let p := selection_step c x xs
    p.1 :: selection_sort_aux c fuel p.2

def selection_sort (c : α → α → Int) (l : List α) : List α :=
  selection_sort_aux c (l.length - 1) l

/-- Modelled from the spec: the QSORT branch of `array_sort` calls the C
library `qsort`, which is not part of this repository (the spec calls it
"library quicksort"). Modelled as a quicksort over the element list with the
same comparator convention (elements comparing `≤ 0` against the pivot go
left of it). -/
def qsort_model (c : α → α → Int) : List α → List α
  | [] => []
  | x :: xs =>
    qsort_model c (xs.filter fun y => decide (c y x ≤ 0)) ++
      x :: qsort_model c (xs.filter fun y => !decide (c y x ≤ 0))
termination_by l => l.length
decreasing_by
  · exact Nat.lt_succ_of_le (xs.length_filter_le _)
  · exact Nat.lt_succ_of_le (xs.length_filter_le _)

/-- The `switch (method)` dispatch of `array_sort` over the working copy. -/
def sort_data (method : SORT_METHOD) (c : α → α → Int) (l : List α) : List α :=
  match method with
  | .QSORT => qsort_model c l
  | .BUBBLE_SORT => bubble_sort c l
  | .INSERTION_SORT => insertion_sort c l
  | .SELECTION_SORT => selection_sort c l

/-- `array_sort`: guards (NULL container, empty, comparator selection with
the per-call override taking precedence, missing comparator), then sorts a
freshly allocated copy of the buffer and installs it (`self->_data =
copy_data`; length and capacity unchanged). `alloc` models the copy malloc. -/
def array_sort (alloc : Bool) (self : Option (JARRAY α)) (method : SORT_METHOD)
    (custom_compare : Option (α → α → Int)) (_t : ErrorTrace) :
    Option (JARRAY α) × ErrorTrace :=
  match self with
  | none => (none, create_return_error .invalidArgument)
  | some s =>
    if s._length = 0 then (some s, create_return_error .empty)
    else
      match custom_compare.orElse fun _ => s.user_callbacks.compare with
      | none => (some s, create_return_error .compareCallbackUninit)
      | some c =>
        if alloc then
          (some { s with _data := some (sort_data method c s.elems) },
           reset_error_trace)
        else (some s, create_return_error .dataNull)

/-! ### Splice -/

/-- The removal loop of `array_splice_ext`: `count` times `remove_at(index)`;
`break` (falling through to insertion) on IndexOutOfBound, early `return` on
any other error (third component `true`). -/
def splice_removals (alloc : Bool) (index : Nat) :
    Nat → JARRAY α → ErrorTrace → JARRAY α × ErrorTrace × Bool
  | 0, s, tr => (s, tr, false)
  | n + 1, s, tr =>
    let r := array_remove_at alloc (some s) index tr
    let s' := r.1.getD s
    if r.2.has_error then
      if r.2.error_code = .indexOutOfBound then (s', r.2, false)
      else (s', r.2, true)
    else splice_removals alloc index n s' r.2

/-- The insertion loop of `array_splice_ext`: the NULL-terminated varargs are
the `elems` list; each element is `add_at(index + offset)`; early `return` on
error. -/
def splice_inserts (alloc : Bool) (index : Nat) :
    List α → Nat → JARRAY α → ErrorTrace → JARRAY α × ErrorTrace × Bool
  | [], _, s, tr => (s, tr, false)
  | e :: es, offset, s, tr =>
    let r := array_add_at alloc (some s) (index + offset) (some e) tr
    let s' := r.1.getD s
    if r.2.has_error then (s', r.2, true)
    else splice_inserts alloc index es (offset + 1) s' r.2

/-- `array_splice_ext`: validate `index ≤ _length`, remove up to `count`
elements at `index` (clamped at the end of the container), then insert the
supplied elements at `index` in order; ends with `reset_error_trace` unless an
inner operation aborted. -/
def array_splice_ext (alloc : Bool) (self : Option (JARRAY α))
    (index count : Nat) (elems : List α) (t : ErrorTrace) :
    Option (JARRAY α) × ErrorTrace :=
  match self with
  | none => (none, create_return_error .invalidArgument)
  | some s =>
    if index > s._length then (some s, create_return_error .invalidArgument)
    else
      let r1 := splice_removals alloc index count s t
      if r1.2.2 then (some r1.1, r1.2.1)
      else
        let r2 := splice_inserts alloc index elems 0 r1.1 r1.2.1
        if r2.2.2 then (some r2.1, r2.2.1)
        else (some r2.1, reset_error_trace)

/-! ### Auxiliary definitions for the verification -/

/-- Model well-formedness: the element list really is the `_length` stored
slots (every reachable container state satisfies this). -/
def JARRAY.WF (s : JARRAY α) : Prop := s.elems.length = s._length

instance (s : JARRAY α) : Decidable s.WF := by unfold JARRAY.WF; infer_instance

/-- "Repeatedly calling remove_at down to zero length": `n` calls of
`remove_at(0)`. -/
def remove_at0_iter (alloc : Bool) : Nat → JARRAY α → JARRAY α
  | 0, s => s
  | n + 1, s =>
    remove_at0_iter alloc n ((array_remove_at alloc (some s) 0 reset_error_trace).1.getD s)

/-- The standard C comparator contract: `compare(a,b)` and `compare(b,a)`
have opposite signs. (This also gives totality of the induced order.) -/
def CmpSign (c : α → α → Int) : Prop := ∀ a b, 0 ≤ c a b ↔ c b a ≤ 0

/-- Transitivity of the order induced by the comparator. -/
def CmpTrans (c : α → α → Int) : Prop :=
  ∀ a b d, c a b ≤ 0 → c b d ≤ 0 → c a d ≤ 0

/-- Comparator ties are equalities. Only needed for the four strategies to
produce literally identical output, not for sortedness. -/
def CmpAntisymm (c : α → α → Int) : Prop :=
  ∀ a b, c a b ≤ 0 → c b a ≤ 0 → a = b

/-- The non-strict order induced by a C comparator. -/
def cle (c : α → α → Int) (a b : α) : Prop := c a b ≤ 0

/-! ### Concrete instances used by the claim witnesses and counterexamples -/

def noCallbacks : Callbacks Int := ⟨none, none, none⟩

def intCallbacks : Callbacks Int :=
  ⟨some fun a b => a - b, some fun a b => a == b, none⟩

/-- A freshly initialized (empty) int container, as left by `array_init`. -/
def emptyIntArray : JARRAY Int := ⟨none, 0, 0, 0, 4, noCallbacks⟩

/-- An int container holding `l` with the given capacity and reservation
floor. -/
def mkIntArray (l : List Int) (cap ma : Nat) : JARRAY Int :=
  ⟨some l, l.length, cap, ma, 4, intCallbacks⟩

/-- The subtraction comparator used by the witnesses. -/
def intCmp : Int → Int → Int := fun a b => a - b

end JArraySpec

namespace JArraySpec

variable {α : Type}

/-! ## Claim theorems -/

/-- C10: `array_shift` applied to a zero-length container reports the error
kind InvalidArgument (not Empty) and leaves the container unchanged. -/
theorem shift_on_empty_reports_invalid_argument (s : JARRAY α) (t : ErrorTrace)
    (h : s._length = 0) :
    array_shift (some s) t = (some s, create_return_error .invalidArgument)
    ∧ JARRAY_ERROR.invalidArgument ≠ JARRAY_ERROR.empty := by
  refine ⟨?_, by decide⟩
  simp only [array_shift]
  rw [if_pos h]

theorem shift_on_empty_reports_invalid_argument_witness :
    array_shift (some emptyIntArray) reset_error_trace
      = (some emptyIntArray, create_return_error .invalidArgument)
    ∧ JARRAY_ERROR.invalidArgument ≠ JARRAY_ERROR.empty :=
  shift_on_empty_reports_invalid_argument emptyIntArray reset_error_trace rfl

/-- C9: `array_filter` on a zero-length container does not report Empty: it
succeeds, returns a new container of length 0 and resets the status to ok —
unlike sort, reduce, contains, any, find_first, clone, join and reverse,
which all reject a zero-length container with Empty. -/
theorem filter_empty_ok_others_reject (s : JARRAY α) (h0 : s._length = 0)
    (hwf : s.WF) (alloc : Bool) (p : α → Bool) (e : α) (f : α → α → Option α)
    (iv : Option α) (sep : Option String) (cc : Option (α → α → Int))
    (m : SORT_METHOD) (t : ErrorTrace) :
    ((array_filter alloc (some s) (some p) t).1.map JARRAY._length = some 0
      ∧ (array_filter alloc (some s) (some p) t).2 = reset_error_trace)
    ∧ (array_sort alloc (some s) m cc t).2 = create_return_error .empty
    ∧ array_reduce alloc (some s) (some f) iv t
        = some (none, create_return_error .empty)
    ∧ (array_contains (some s) (some e) t).2 = create_return_error .empty
    ∧ (array_any (some s) (some p) t).2 = create_return_error .empty
    ∧ (array_find_first (some s) (some p) t).2 = create_return_error .empty
    ∧ (array_clone alloc (some s) t).2 = create_return_error .empty
    ∧ (array_join alloc (some s) sep t).2 = create_return_error .empty
    ∧ (array_reverse alloc (some s) t).2 = create_return_error .empty := by
  have he : s.elems = [] := List.length_eq_zero.mp (hwf.trans h0)
  refine ⟨⟨?_, ?_⟩, ?_, ?_, ?_, ?_, ?_, ?_, ?_, ?_⟩ <;>
    simp [array_filter, array_sort, array_reduce, array_contains, array_any,
          array_find_first, array_clone, array_join, array_reverse, h0, he]

theorem filter_empty_ok_others_reject_witness :
    ((array_filter true (some emptyIntArray) (some fun x => decide (0 < x))
        reset_error_trace).1.map JARRAY._length = some 0
      ∧ (array_filter true (some emptyIntArray) (some fun x => decide (0 < x))
          reset_error_trace).2 = reset_error_trace)
    ∧ (array_sort true (some emptyIntArray) .QSORT (some intCmp)
        reset_error_trace).2 = create_return_error .empty
    ∧ array_reduce true (some emptyIntArray) (some fun a b => some (a + b))
        (some 0) reset_error_trace = some (none, create_return_error .empty)
    ∧ (array_contains (some emptyIntArray) (some 0) reset_error_trace).2
        = create_return_error .empty
    ∧ (array_any (some emptyIntArray) (some fun x => decide (0 < x))
        reset_error_trace).2 = create_return_error .empty
    ∧ (array_find_first (some emptyIntArray) (some fun x => decide (0 < x))
        reset_error_trace).2 = create_return_error .empty
    ∧ (array_clone true (some emptyIntArray) reset_error_trace).2
        = create_return_error .empty
    ∧ (array_join true (some emptyIntArray) (some "-") reset_error_trace).2
        = create_return_error .empty
    ∧ (array_reverse true (some emptyIntArray) reset_error_trace).2
        = create_return_error .empty :=
  filter_empty_ok_others_reject emptyIntArray rfl (by decide) true _ 0 _
    (some 0) (some "-") (some intCmp) .QSORT reset_error_trace

/-- C2 (code bug): on an allocation failure `array_add_all` has already
overwritten `_capacity` (the C stores the grown capacity before attempting
the realloc), so the container is NOT left in its pre-call state; by contrast
`array_add` under the same failing allocation leaves the container
untouched. -/
theorem add_all_alloc_failure_mutates_capacity :
    (array_add_all false (some (mkIntArray [5] 1 0)) (some [7]) 1
        reset_error_trace).map (fun r => (r.1.map JARRAY._capacity, r.2))
      = some (some 2, create_return_error .dataNull)
    ∧ (mkIntArray [5] 1 0)._capacity = 1
    ∧ array_add false (some (mkIntArray [5] 1 0)) (some 7) reset_error_trace
      = (some (mkIntArray [5] 1 0), create_return_error .dataNull) := by
  refine ⟨?_, rfl, rfl⟩
  simp [array_add_all, array_add_all_newcap, addAllGrowLoop, addAllGrowStep,
        mkIntArray]

/-- C1 (code bug): `array_concat` copies only ONE element of `arr1`
(`memcpy_elem(arr1, new_array._data, arr1->_data, 1)`), so slot 1 of the
result buffer is never written (uninitialized) instead of holding `arr1`'s
second element, even though the result's `_length` is the sum of the input
lengths. -/
theorem concat_copies_only_first_element_of_arr1 :
    (array_concat true (some (mkIntArray [10, 20] 2 0))
        (some (mkIntArray [30] 1 0)) reset_error_trace).1.map ConcatResult.cells
      = some [some 10, none, some 30]
    ∧ (array_concat true (some (mkIntArray [10, 20] 2 0))
        (some (mkIntArray [30] 1 0)) reset_error_trace).1.map
          ConcatResult._length = some 3
    ∧ ([some 10, none, some 30] : List (Option Int)) ≠ [10, 20, 30].map some :=
  ⟨rfl, rfl, by decide⟩

/-- C8 (code bug): `array_indexes_of` mallocs a buffer of `_length` index
slots but stores match number `k` at slot `k + 1`, so when every element
matches the last store lands at slot `_length`, one past the end of the
allocation (overflow flag `true`); with fewer matches than elements the
count/indices layout the claim describes does fit the allocation. -/
theorem indexes_of_overflows_when_all_match :
    array_indexes_of true (some (mkIntArray [7] 1 0)) 7 reset_error_trace
      = ((some [1, 0], true), reset_error_trace)
    ∧ array_indexes_of true (some (mkIntArray [7, 9, 7] 3 0)) 7
        reset_error_trace = ((some [2, 0, 2], false), reset_error_trace) :=
  ⟨rfl, rfl⟩

/-- C5 counterexample: removing the only element of a container whose
reservation floor was set to 2 by `reserve` still frees the backing store:
capacity becomes 0 (not the floor) and `_data` is released. -/
theorem remove_at_ignores_reservation_floor_at_zero :
    (array_remove_at true (some (mkIntArray [42] 2 2)) 0 reset_error_trace).1.map
        (fun s => (s._data.isSome, s._capacity, s._min_alloc))
      = some (false, 0, 2)
    ∧ (0 : Nat) ≠ 2 := ⟨rfl, by decide⟩

/-- `remove_at(0)` on a container with more than one element: the tail
remains (under some capacity, depending on the shrink branch). -/
theorem remove_at_zero_tail (alloc : Bool) (x : α) (d : List α)
    (cap ma es : Nat) (cb : Callbacks α) (hd : d ≠ []) :
    ∃ cap', (array_remove_at alloc
        (some (JARRAY.mk (some (x :: d)) (d.length + 1) cap ma es cb)) 0
        reset_error_trace).1
      = some (JARRAY.mk (some d) d.length cap' ma es cb) := by
  have hlen : d.length ≠ 0 := fun hh => hd (List.length_eq_zero.mp hh)
  simp only [array_remove_at, JARRAY.elems, Option.getD_some, List.take_zero,
    List.drop_succ_cons, List.drop_zero, List.nil_append, ge_iff_le,
    Nat.add_sub_cancel]
  rw [if_neg (by omega)]
  rw [if_neg hlen]
  split
  · split
    · exact ⟨_, rfl⟩
    · exact ⟨_, rfl⟩
  · exact ⟨_, rfl⟩

/-- `remove_at(0)` on a one-element container frees the backing store
regardless of the reservation floor. -/
theorem remove_at_zero_last (alloc : Bool) (x : α) (cap ma es : Nat)
    (cb : Callbacks α) :
    (array_remove_at alloc (some (JARRAY.mk (some [x]) 1 cap ma es cb)) 0
        reset_error_trace).1
      = some (JARRAY.mk none 0 0 ma es cb) := by
  simp [array_remove_at, JARRAY.elems]

/-- C5 (amended): repeatedly calling `remove_at` down to zero length ALWAYS
releases the backing store — capacity becomes 0 and `_data` is freed — even
when a reservation floor was set via `reserve`; the floor only bounds the
shrink target while elements remain. -/
theorem remove_at_to_zero_always_releases (alloc : Bool) (d : List α)
    (cap ma es : Nat) (cb : Callbacks α) (h : d ≠ []) :
    remove_at0_iter alloc d.length (JARRAY.mk (some d) d.length cap ma es cb)
      = JARRAY.mk none 0 0 ma es cb := by
  induction d generalizing cap with
  | nil => exact absurd rfl h
  | cons x d ih =>
    rcases eq_or_ne d [] with hd | hd
    · subst hd
      simp only [List.length_cons, List.length_nil, Nat.zero_add,
        remove_at0_iter]
      rw [remove_at_zero_last alloc x cap ma es cb]
      rfl
    · simp only [List.length_cons, remove_at0_iter]
      obtain ⟨cap', hcap'⟩ := remove_at_zero_tail alloc x d cap ma es cb hd
      rw [hcap']
      simp only [Option.getD_some]
      exact ih cap' hd

theorem remove_at_to_zero_always_releases_witness :
    remove_at0_iter true 2 (JARRAY.mk (some [(1 : Int), 2]) 2 5 3 4 noCallbacks)
      = JARRAY.mk none 0 0 3 4 noCallbacks := by
  have h := remove_at_to_zero_always_releases true [(1 : Int), 2] 5 3 4
    noCallbacks (by decide)
  simpa using h

/-- C3 counterexample: after a failing `array_at` (IndexOutOfBound), a
successful `array_any` returns `true` while the previous operation's error is
still the visible status — a successful operation does not overwrite the
record with the ok state. -/
theorem any_succeeds_with_stale_error_visible :
    array_any (some (mkIntArray [5] 1 0)) (some fun _ => true)
        (array_at (some (mkIntArray [5] 1 0)) 3 reset_error_trace).2
      = (true, create_return_error .indexOutOfBound)
    ∧ (create_return_error .indexOutOfBound).has_error = true := ⟨rfl, rfl⟩

/-- C3 (amended): called on a container, the operations at, add, add_at,
remove_at, sort, shift, filter, contains and reverse overwrite the
process-wide status record with their own outcome — ok on success, the
call's own error kind on a validation or allocation failure, independent of
the incoming record — but `array_any`'s boolean-returning paths,
`array_length`'s successful return and `array_free` never write the status
record, so a previous operation's error outcome remains visible after one of
those calls returns successfully. -/
theorem status_overwrite_scope (s : JARRAY α) (e : α) (p : α → Bool)
    (i : Nat) (t t' : ErrorTrace) (alloc : Bool) (oe : Option α)
    (m : SORT_METHOD) (cmp : α → α → Int) (oc : Option (α → α → Int)) :
    ((array_at (some s) i t).2 = (array_at (some s) i t').2)
    ∧ ((array_add alloc (some s) oe t).2 = (array_add alloc (some s) oe t').2)
    ∧ ((array_add_at alloc (some s) i oe t).2
        = (array_add_at alloc (some s) i oe t').2)
    ∧ ((array_remove_at alloc (some s) i t).2
        = (array_remove_at alloc (some s) i t').2)
    ∧ ((array_sort alloc (some s) m oc t).2
        = (array_sort alloc (some s) m oc t').2)
    ∧ ((array_shift (some s) t).2 = (array_shift (some s) t').2)
    ∧ ((array_filter alloc (some s) (some p) t).2
        = (array_filter alloc (some s) (some p) t').2)
    ∧ ((array_contains (some s) oe t).2 = (array_contains (some s) oe t').2)
    ∧ ((array_reverse alloc (some s) t).2 = (array_reverse alloc (some s) t').2)
    ∧ ((array_add true (some s) (some e) t).2 = reset_error_trace)
    ∧ (i ≤ s._length →
        (array_add_at true (some s) i (some e) t).2 = reset_error_trace)
    ∧ (i < s._length →
        (array_remove_at true (some s) i t).2 = reset_error_trace)
    ∧ (∀ d, s._data = some d → i < s._length →
        (array_at (some s) i t).2 = reset_error_trace)
    ∧ (s._length ≠ 0 →
        (array_sort true (some s) m (some cmp) t).2 = reset_error_trace)
    ∧ (s._length ≠ 0 → (array_shift (some s) t).2 = reset_error_trace)
    ∧ ((array_filter alloc (some s) (some p) t).2 = reset_error_trace)
    ∧ (∀ eqf, s.user_callbacks.is_equal = some eqf → s._length ≠ 0 →
        (array_contains (some s) (some e) t).2 = reset_error_trace)
    ∧ (s._length ≠ 0 → (array_reverse true (some s) t).2 = reset_error_trace)
    ∧ ((array_add alloc (some s) (none : Option α) t).2
        = create_return_error .invalidArgument)
    ∧ (s._length + 1 > s._capacity →
        (array_add false (some s) (some e) t).2
          = create_return_error .dataNull)
    ∧ ((array_add_at alloc (some s) i (none : Option α) t).2
        = create_return_error .invalidArgument)
    ∧ (i > s._length →
        (array_add_at alloc (some s) i (some e) t).2
          = create_return_error .indexOutOfBound)
    ∧ (i ≥ s._length →
        (array_remove_at alloc (some s) i t).2
          = create_return_error .indexOutOfBound)
    ∧ (s._length = 0 →
        (array_sort alloc (some s) m oc t).2 = create_return_error .empty)
    ∧ (s._length ≠ 0 → s.user_callbacks.compare = none →
        (array_sort alloc (some s) m (none : Option (α → α → Int)) t).2
          = create_return_error .compareCallbackUninit)
    ∧ (s._length = 0 →
        (array_shift (some s) t).2 = create_return_error .invalidArgument)
    ∧ ((array_filter alloc (some s) (none : Option (α → Bool)) t).2
        = create_return_error .invalidArgument)
    ∧ ((array_contains (some s) (none : Option α) t).2
        = create_return_error .invalidArgument)
    ∧ (s._length = 0 →
        (array_contains (some s) (some e) t).2 = create_return_error .empty)
    ∧ (s._length ≠ 0 → s.user_callbacks.is_equal = none →
        (array_contains (some s) (some e) t).2
          = create_return_error .isEqualCallbackUninit)
    ∧ (s._length = 0 →
        (array_reverse alloc (some s) t).2 = create_return_error .empty)
    ∧ (s._length ≠ 0 →
        (array_reverse false (some s) t).2 = create_return_error .dataNull)
    ∧ (s._data = none → (array_at (some s) i t).2 = create_return_error .dataNull)
    ∧ (∀ d, s._data = some d → i ≥ s._length →
        (array_at (some s) i t).2 = create_return_error .indexOutOfBound)
    ∧ (s._length ≠ 0 → (array_any (some s) (some p) t).2 = t)
    ∧ (array_length (some s) t = (s._length, t))
    ∧ ((array_free (some s) t).2 = t)
    ∧ ((array_free (none : Option (JARRAY α)) t).2 = t) := by
  refine ⟨rfl, rfl, rfl, rfl, rfl, rfl, rfl, rfl, rfl,
    ?_, ?_, ?_, ?_, ?_, ?_, rfl, ?_, ?_,
    rfl, ?_, rfl, ?_, ?_, ?_, ?_, ?_, rfl, rfl, ?_, ?_, ?_, ?_, ?_, ?_,
    ?_, rfl, rfl, rfl⟩
  · simp only [array_add]
    split <;> rfl
  · intro h
    simp only [array_add_at]
    rw [if_neg (by omega)]
    split <;> rfl
  · intro h
    simp only [array_remove_at, ge_iff_le]
    rw [if_neg (by omega)]
    split
    · rfl
    · split
      · split <;> rfl
      · rfl
  · intro d hd h
    simp only [array_at, hd, ge_iff_le]
    rw [if_neg (by omega)]
  · intro h
    simp only [array_sort]
    rw [if_neg h]
    rfl
  · intro h
    simp only [array_shift]
    rw [if_neg h]
    split
    · rfl
    · split <;> rfl
  · intro eqf heq h
    simp only [array_contains]
    rw [if_neg h, heq]
  · intro h
    simp only [array_reverse]
    rw [if_neg h]
    rfl
  · intro h
    simp only [array_add]
    rw [if_pos h]
    rfl
  · intro h
    simp only [array_add_at]
    rw [if_pos h]
  · intro h
    simp only [array_remove_at, ge_iff_le]
    rw [if_pos h]
  · intro h
    simp only [array_sort]
    rw [if_pos h]
  · intro h1 h2
    simp [array_sort, Option.orElse, h1, h2]
  · intro h
    simp only [array_shift]
    rw [if_pos h]
  · intro h
    simp only [array_contains]
    rw [if_pos h]
  · intro h1 h2
    simp only [array_contains]
    rw [if_neg h1, h2]
  · intro h
    simp only [array_reverse]
    rw [if_pos h]
  · intro h
    simp only [array_reverse]
    rw [if_neg h]
    rfl
  · intro hd
    simp only [array_at, hd]
  · intro d hd h
    simp only [array_at, hd, ge_iff_le]
    rw [if_pos h]
  · intro h
    simp only [array_any]
    rw [if_neg h]

theorem status_overwrite_scope_witness :
    ((array_add true (some (mkIntArray [5] 1 0)) (some 7)
        (create_return_error .indexOutOfBound)).2 = reset_error_trace)
    ∧ ((array_shift (some (mkIntArray [5] 1 0))
        (create_return_error .indexOutOfBound)).2
      = (array_shift (some (mkIntArray [5] 1 0)) reset_error_trace).2)
    ∧ ((mkIntArray [5] 1 0)._length ≠ 0 →
        (array_any (some (mkIntArray [5] 1 0)) (some fun _ => true)
          (create_return_error .indexOutOfBound)).2
          = create_return_error .indexOutOfBound)
    ∧ (array_length (some (mkIntArray [5] 1 0))
        (create_return_error .indexOutOfBound)
      = ((mkIntArray [5] 1 0)._length, create_return_error .indexOutOfBound))
    ∧ ((array_free (some (mkIntArray [5] 1 0))
        (create_return_error .indexOutOfBound)).2
      = create_return_error .indexOutOfBound)
    ∧ ((array_free (none : Option (JARRAY Int))
        (create_return_error .indexOutOfBound)).2
      = create_return_error .indexOutOfBound) := by
  have h := status_overwrite_scope (mkIntArray [5] 1 0) 7 (fun _ => true) 0
    (create_return_error .indexOutOfBound) reset_error_trace true (some 7)
    .QSORT intCmp none
  obtain ⟨-, -, -, -, -, h6, -, -, -, h10, -, -, -, -, -, -, -, -,
    -, -, -, -, -, -, -, -, -, -, -, -, -, -, -, -, h35, h36, h37, h38⟩ := h
  exact ⟨h10, h6, h35, h36, h37, h38⟩

/-- C4 counterexample: `array_any` with a NULL predicate on an empty
container reports Empty, not InvalidArgument — the emptiness check runs
before the null-predicate check. -/
theorem any_null_predicate_on_empty_reports_empty :
    array_any (some emptyIntArray) (none : Option (Int → Bool))
        reset_error_trace = (false, create_return_error .empty)
    ∧ JARRAY_ERROR.empty ≠ JARRAY_ERROR.invalidArgument := ⟨rfl, by decide⟩

/-- C4 (amended): a NULL container is reported as InvalidArgument, first, by
the operations that check it (any, find_first, add, set, …), and several NULL
required-pointer arguments are InvalidArgument (add's element, find_first's
predicate) — with these deviations: `array_any` (like the other
backward/index searches) checks emptiness before its null-predicate check,
so a search with a NULL predicate on an empty container reports Empty rather
than InvalidArgument; `array_add_all` never null-checks the container,
dereferencing a NULL container whenever its data argument is usable (though
its data-null check does fire first); `array_find_first_index` dereferences
the NULL container right after recording InvalidArgument; `array_set` never
null-checks its element pointer, so a NULL element reaches the copy
primitive unchecked, with no error recorded; and `array_free` silently
ignores a NULL container without recording any error. -/
theorem null_argument_check_ordering (s : JARRAY α) (e : α) (d : List α)
    (cnt i : Nat) (alloc : Bool) (t : ErrorTrace) (op : Option (α → Bool))
    (oe : Option α) :
    (array_any (none : Option (JARRAY α)) op t
      = (false, create_return_error .invalidArgument))
    ∧ (s._length = 0 → array_any (some s) (none : Option (α → Bool)) t
        = (false, create_return_error .empty))
    ∧ (s._length ≠ 0 → array_any (some s) (none : Option (α → Bool)) t
        = (false, create_return_error .invalidArgument))
    ∧ (array_find_first (some s) (none : Option (α → Bool)) t
        = (none, create_return_error .invalidArgument))
    ∧ (array_add alloc (none : Option (JARRAY α)) (some e) t
        = (none, create_return_error .invalidArgument))
    ∧ (array_add alloc (some s) (none : Option α) t
        = (some s, create_return_error .invalidArgument))
    ∧ (cnt ≠ 0 →
        array_add_all alloc (none : Option (JARRAY α)) (some d) cnt t = none)
    ∧ (array_add_all alloc (none : Option (JARRAY α))
        (none : Option (List α)) cnt t
        = some (none, create_return_error .invalidArgument))
    ∧ (array_find_first_index (none : Option (JARRAY α)) op t = none)
    ∧ (array_set (none : Option (JARRAY α)) i oe t
        = some (none, create_return_error .invalidArgument))
    ∧ (s._length ≠ 0 → i < s._length →
        array_set (some s) i (none : Option α) t = none)
    ∧ (array_free (none : Option (JARRAY α)) t = (none, t)) := by
  refine ⟨rfl, ?_, ?_, rfl, rfl, rfl, ?_, rfl, rfl, rfl, ?_, rfl⟩
  · intro h
    simp [array_any, h]
  · intro h
    simp [array_any, h]
  · intro h
    simp [array_add_all, h]
  · intro h1 h2
    simp only [array_set]
    rw [if_neg h1, if_neg (by omega)]

theorem null_argument_check_ordering_witness :
    (array_any (none : Option (JARRAY Int)) (some fun _ => true)
        reset_error_trace = (false, create_return_error .invalidArgument))
    ∧ (emptyIntArray._length = 0 →
        array_any (some emptyIntArray) (none : Option (Int → Bool))
          reset_error_trace = (false, create_return_error .empty))
    ∧ (emptyIntArray._length ≠ 0 →
        array_any (some emptyIntArray) (none : Option (Int → Bool))
          reset_error_trace = (false, create_return_error .invalidArgument))
    ∧ (array_find_first (some emptyIntArray) (none : Option (Int → Bool))
        reset_error_trace = (none, create_return_error .invalidArgument))
    ∧ (array_add true (none : Option (JARRAY Int)) (some 7) reset_error_trace
        = (none, create_return_error .invalidArgument))
    ∧ (array_add true (some emptyIntArray) (none : Option Int)
        reset_error_trace
        = (some emptyIntArray, create_return_error .invalidArgument))
    ∧ ((1 : Nat) ≠ 0 →
        array_add_all true (none : Option (JARRAY Int)) (some [7]) 1
          reset_error_trace = none)
    ∧ (array_add_all true (none : Option (JARRAY Int))
        (none : Option (List Int)) 1 reset_error_trace
        = some (none, create_return_error .invalidArgument))
    ∧ (array_find_first_index (none : Option (JARRAY Int))
        (some fun _ => true) reset_error_trace = none)
    ∧ (array_set (none : Option (JARRAY Int)) 0 (some 7) reset_error_trace
        = some (none, create_return_error .invalidArgument))
    ∧ ((mkIntArray [5] 1 0)._length ≠ 0 → (0 : Nat) < (mkIntArray [5] 1 0)._length →
        array_set (some (mkIntArray [5] 1 0)) 0 (none : Option Int)
          reset_error_trace = none)
    ∧ (array_free (none : Option (JARRAY Int)) reset_error_trace
        = (none, reset_error_trace)) := by
  have h := null_argument_check_ordering emptyIntArray 7 [7] 1 0 true
    reset_error_trace (some fun _ => true) (some 7)
  have h2 := null_argument_check_ordering (mkIntArray [5] 1 0) 7 [7] 1 0 true
    reset_error_trace (some fun _ => true) (some 7)
  exact ⟨h.1, h.2.1, h.2.2.1, h.2.2.2.1, h.2.2.2.2.1, h.2.2.2.2.2.1,
    h.2.2.2.2.2.2.1, h.2.2.2.2.2.2.2.1, h.2.2.2.2.2.2.2.2.1,
    h.2.2.2.2.2.2.2.2.2.1, h2.2.2.2.2.2.2.2.2.2.2.1,
    h.2.2.2.2.2.2.2.2.2.2.2⟩

/-! ## Splice (C7) -/

theorem length_insert_list (l : List α) (i : Nat) (e : α) (hi : i ≤ l.length) :
    (l.take i ++ e :: l.drop i).length = l.length + 1 := by
  simp only [List.length_append, List.length_take, List.length_cons,
    List.length_drop]
  omega

/-- `array_add_at` on a valid index with a successful allocation: the element
is inserted at `i`, the length grows by one, the trace is reset. -/
theorem add_at_spec (s : JARRAY α) (i : Nat) (e : α) (t : ErrorTrace)
    (hwf : s.WF) (hi : i ≤ s._length) :
    ∃ s', array_add_at true (some s) i (some e) t = (some s', reset_error_trace)
      ∧ s'.elems = s.elems.take i ++ e :: s.elems.drop i
      ∧ s'._length = s._length + 1 ∧ s'.WF := by
  have hwfe : s.elems.length = s._length := hwf
  have hlen := length_insert_list s.elems i e (by omega)
  simp only [array_add_at]
  rw [if_neg (by omega)]
  split
  · refine ⟨_, rfl, rfl, rfl, ?_⟩
    exact hlen.trans (by rw [hwfe])
  · refine ⟨_, rfl, rfl, rfl, ?_⟩
    exact hlen.trans (by rw [hwfe])

/-- `array_remove_at` on a valid index: the element at `i` is removed, the
length shrinks by one, the trace is reset (whatever the shrink branch). -/
theorem remove_at_spec (s : JARRAY α) (i : Nat) (t : ErrorTrace)
    (hwf : s.WF) (hi : i < s._length) :
    ∃ s', array_remove_at true (some s) i t = (some s', reset_error_trace)
      ∧ s'.elems = s.elems.take i ++ s.elems.drop (i + 1)
      ∧ s'._length = s._length - 1 ∧ s'.WF := by
  have hwfe : s.elems.length = s._length := hwf
  have hlen : (s.elems.take i ++ s.elems.drop (i + 1)).length = s._length - 1 := by
    simp only [List.length_append, List.length_take, List.length_drop]
    omega
  simp only [array_remove_at]
  rw [if_neg (by omega)]
  split
  · rename_i h0
    refine ⟨{ s with _data := none, _length := 0, _capacity := 0 }, rfl, ?_, ?_, ?_⟩
    · exact (List.length_eq_zero.mp (hlen.trans h0)).symm
    · exact h0.symm
    · simp [JARRAY.WF, JARRAY.elems]
  · split
    · refine ⟨_, rfl, rfl, rfl, ?_⟩
      exact hlen
    · refine ⟨_, rfl, rfl, rfl, ?_⟩
      exact hlen

/-- The splice removal loop removes `min count (length - index)` elements at
`index`, clamping at the end of the container without aborting. -/
theorem splice_removals_spec (count : Nat) (s : JARRAY α) (tr : ErrorTrace)
    (index : Nat) (hwf : s.WF) (hi : index ≤ s._length) :
    ∃ s' tr', splice_removals true index count s tr = (s', tr', false)
      ∧ s'.elems = s.elems.take index
          ++ s.elems.drop (index + min count (s._length - index))
      ∧ s'._length = s._length - min count (s._length - index)
      ∧ s'.WF ∧ index ≤ s'._length := by
  induction count generalizing s tr with
  | zero =>
    refine ⟨s, tr, rfl, ?_, by omega, hwf, hi⟩
    simp [List.take_append_drop]
  | succ n ih =>
    have hwfe : s.elems.length = s._length := hwf
    rcases Nat.lt_or_ge index s._length with hlt | hge
    · obtain ⟨s₁, hs₁, he₁, hl₁, hwf₁⟩ := remove_at_spec s index tr hwf hlt
      have hi₁ : index ≤ s₁._length := by omega
      obtain ⟨s', tr', hrec, he', hl', hwf', hi'⟩ := ih s₁ reset_error_trace hwf₁ hi₁
      have hA : (s.elems.take index).length = index := by
        simp only [List.length_take]; omega
      refine ⟨s', tr', ?_, ?_, ?_, hwf', hi'⟩
      · simp only [splice_removals, hs₁, Option.getD_some]
        simpa [reset_error_trace] using hrec
      · rw [he', he₁, hl₁]
        rw [List.take_append_of_le_length (le_of_eq hA.symm),
          List.take_take, min_self]
        rw [List.drop_append_eq_append_drop, hA]
        have hnil : (s.elems.take index).drop
            (index + min n (s._length - 1 - index)) = [] :=
          List.drop_eq_nil_of_le (by rw [hA]; omega)
        rw [hnil, List.nil_append]
        have ha1 : index + min n (s._length - 1 - index) - index
            = min n (s._length - 1 - index) := by omega
        rw [ha1, List.drop_drop]
        have ha2 : index + 1 + min n (s._length - 1 - index)
            = index + min (n + 1) (s._length - index) := by omega
        rw [ha2]
      · omega
    · refine ⟨s, create_return_error .indexOutOfBound, ?_, ?_, ?_, hwf, hi⟩
      · simp only [splice_removals, array_remove_at]
        rw [if_pos hge]
        rfl
      · have h0 : min (n + 1) (s._length - index) = 0 := by omega
        rw [h0]
        simp [List.take_append_drop]
      · omega

/-- The splice insertion loop inserts the elements in order at
`index + offset`. -/
theorem splice_inserts_spec (es : List α) (offset : Nat) (s : JARRAY α)
    (tr : ErrorTrace) (index : Nat) (hwf : s.WF)
    (hi : index + offset ≤ s._length) :
    ∃ s' tr', splice_inserts true index es offset s tr = (s', tr', false)
      ∧ s'.elems = s.elems.take (index + offset) ++ es
          ++ s.elems.drop (index + offset)
      ∧ s'._length = s._length + es.length ∧ s'.WF := by
  induction es generalizing offset s tr with
  | nil =>
    refine ⟨s, tr, rfl, ?_, by simp, hwf⟩
    simp [List.take_append_drop]
  | cons e es ih =>
    have hwfe : s.elems.length = s._length := hwf
    obtain ⟨s₁, hs₁, he₁, hl₁, hwf₁⟩ := add_at_spec s (index + offset) e tr hwf hi
    have hi₁ : index + (offset + 1) ≤ s₁._length := by omega
    obtain ⟨s', tr', hrec, he', hl', hwf'⟩ := ih (offset + 1) s₁ reset_error_trace hwf₁ hi₁
    have hA : (s.elems.take (index + offset)).length = index + offset := by
      simp only [List.length_take]; omega
    refine ⟨s', tr', ?_, ?_, by simp only [List.length_cons]; omega, hwf'⟩
    · simp only [splice_inserts, hs₁, Option.getD_some]
      simpa [reset_error_trace] using hrec
    · rw [he', he₁]
      have hto : (s.elems.take (index + offset)).take (index + (offset + 1))
          = s.elems.take (index + offset) :=
        List.take_of_length_le (by rw [hA]; omega)
      have hta : (s.elems.take (index + offset)
            ++ e :: s.elems.drop (index + offset)).take (index + (offset + 1))
          = s.elems.take (index + offset) ++ [e] := by
        rw [List.take_append_eq_append_take, hA, hto]
        have h1 : index + (offset + 1) - (index + offset) = 1 := by omega
        rw [h1]
        rfl
      have htb : (s.elems.take (index + offset)
            ++ e :: s.elems.drop (index + offset)).drop (index + (offset + 1))
          = s.elems.drop (index + offset) := by
        rw [List.drop_append_eq_append_drop, hA]
        have hnil : (s.elems.take (index + offset)).drop (index + (offset + 1))
            = [] := List.drop_eq_nil_of_le (by rw [hA]; omega)
        rw [hnil, List.nil_append]
        have h1 : index + (offset + 1) - (index + offset) = 1 := by omega
        rw [h1]
        rfl
      rw [hta, htb]
      simp

/-- C7: for every container and every `index ≤ length`,
`splice(index, remove_count, elems…)` first removes
`min(remove_count, length − index)` elements at `index` — clamping at the end
of the container without reporting an error — then inserts the supplied
elements at `index` in their given order, and ends with the ok status. -/
theorem splice_removes_clamped_then_inserts (s : JARRAY α) (index count : Nat)
    (es : List α) (t : ErrorTrace) (hwf : s.WF) (hi : index ≤ s._length) :
    ∃ s', array_splice_ext true (some s) index count es t
        = (some s', reset_error_trace)
      ∧ s'.elems = s.elems.take index ++ es
          ++ s.elems.drop (index + min count (s._length - index))
      ∧ s'._length = s._length - min count (s._length - index) + es.length := by
  obtain ⟨s₁, tr₁, hrem, he₁, hl₁, hwf₁, hi₁⟩ :=
    splice_removals_spec count s t index hwf hi
  obtain ⟨s₂, tr₂, hins, he₂, hl₂, _⟩ :=
    splice_inserts_spec es 0 s₁ tr₁ index hwf₁ (by omega)
  refine ⟨s₂, ?_, ?_, by omega⟩
  · simp only [array_splice_ext]
    rw [if_neg (by omega)]
    simp only [hrem, hins]
    rfl
  · rw [he₂]
    simp only [Nat.add_zero]
    rw [he₁]
    have h1 := hwf
    simp only [JARRAY.WF] at h1
    have hta : (s.elems.take index
          ++ s.elems.drop (index + min count (s._length - index))).take index
        = s.elems.take index := by
      rw [List.take_append_of_le_length]
      · rw [List.take_take, min_self]
      · simp only [List.length_take]; omega
    have htb : (s.elems.take index
          ++ s.elems.drop (index + min count (s._length - index))).drop index
        = s.elems.drop (index + min count (s._length - index)) := by
      rw [List.drop_append_eq_append_drop]
      rw [List.drop_eq_nil_of_le (by simp only [List.length_take]; omega),
        List.nil_append]
      have hz : index - (s.elems.take index).length = 0 := by
        simp only [List.length_take]; omega
      rw [hz, List.drop_zero]
    rw [hta, htb]

theorem splice_removes_clamped_then_inserts_witness :
    ∃ s', array_splice_ext true (some (mkIntArray [1, 2, 3, 4, 5] 5 0)) 1 2 [9]
        reset_error_trace = (some s', reset_error_trace)
      ∧ s'.elems = (mkIntArray [1, 2, 3, 4, 5] 5 0).elems.take 1 ++ [9]
          ++ (mkIntArray [1, 2, 3, 4, 5] 5 0).elems.drop
              (1 + min 2 ((mkIntArray [1, 2, 3, 4, 5] 5 0)._length - 1))
      ∧ s'._length = (mkIntArray [1, 2, 3, 4, 5] 5 0)._length
          - min 2 ((mkIntArray [1, 2, 3, 4, 5] 5 0)._length - 1) + 1 :=
  splice_removes_clamped_then_inserts (mkIntArray [1, 2, 3, 4, 5] 5 0) 1 2 [9]
    reset_error_trace (by decide) (by decide)

/-! ## Sort correctness (C6) -/

section SortCorrectness

open List

variable {c : α → α → Int}

theorem cle_refl (hs : CmpSign c) (a : α) : cle c a a := by
  unfold cle
  by_contra h
  exact h ((hs a a).mp (by omega))

theorem cle_of_pos (hs : CmpSign c) {a b : α} (h : 0 < c a b) : cle c b a :=
  (hs a b).mp (by omega)

theorem cle_of_not_pos {a b : α} (h : ¬ 0 < c a b) : cle c a b := by
  unfold cle
  omega

theorem cle_of_not_lt (hs : CmpSign c) {a b : α} (h : ¬ c a b < 0) : cle c b a :=
  (hs a b).mp (by omega)

theorem cle_of_lt {a b : α} (h : c a b < 0) : cle c a b := by
  unfold cle
  omega

/-! ### Bubble sort -/

theorem bubble_pass_perm (k : Nat) (l : List α) : bubble_pass c k l ~ l := by
  induction k generalizing l with
  | zero => simp [bubble_pass]
  | succ k ih =>
    match l with
    | [] => simp [bubble_pass]
    | [x] => simp [bubble_pass]
    | x :: y :: rest =>
      simp only [bubble_pass]
      split
      · exact ((ih (x :: rest)).cons y).trans (List.Perm.swap x y rest)
      · exact (ih (y :: rest)).cons x

theorem bubble_pass_length (k : Nat) (l : List α) :
    (bubble_pass c k l).length = l.length :=
  (bubble_pass_perm k l).length_eq

theorem bubble_pass_drop (k : Nat) (l : List α) :
    (bubble_pass c k l).drop (k + 1) = l.drop (k + 1) := by
  induction k generalizing l with
  | zero =>
    simp [bubble_pass]
  | succ k ih =>
    match l with
    | [] => simp [bubble_pass]
    | [x] => simp [bubble_pass]
    | x :: y :: rest =>
      simp only [bubble_pass]
      split
      · simpa using ih (x :: rest)
      · simpa using ih (y :: rest)

theorem bubble_pass_take_perm (k : Nat) (l : List α) :
    (bubble_pass c k l).take (k + 1) ~ l.take (k + 1) := by
  induction k generalizing l with
  | zero => simp [bubble_pass]
  | succ k ih =>
    match l with
    | [] => simp [bubble_pass]
    | [x] => simp [bubble_pass]
    | x :: y :: rest =>
      simp only [bubble_pass]
      split
      · simp only [List.take_succ_cons]
        exact ((ih (x :: rest)).cons y).trans
          (by simpa using List.Perm.swap x y (rest.take k))
      · simp only [List.take_succ_cons]
        exact (ih (y :: rest)).cons x

theorem bubble_pass_max (hs : CmpSign c) (htr : CmpTrans c) (k : Nat)
    (l : List α) (hk : k < l.length) :
    ∃ m, (bubble_pass c k l)[k]? = some m ∧ m ∈ l.take (k + 1)
      ∧ ∀ x ∈ l.take (k + 1), cle c x m := by
  induction k generalizing l with
  | zero =>
    match l with
    | [] => simp at hk
    | a :: l' =>
      refine ⟨a, by simp [bubble_pass], by simp, ?_⟩
      intro x hx
      have hxa : x = a := by simpa using hx
      subst hxa
      exact cle_refl hs _
  | succ k ih =>
    match l with
    | [] => simp at hk
    | [x] => exact absurd hk (by simp)
    | x :: y :: rest =>
      have hk' : k < rest.length + 1 := by
        simpa using Nat.lt_of_succ_lt_succ hk
      simp only [bubble_pass]
      split
      · rename_i hxy
        obtain ⟨m, hm, hmem, hmax⟩ := ih (x :: rest) (by simpa using hk')
        refine ⟨m, by simpa using hm, ?_, ?_⟩
        · simp only [List.take_succ_cons, List.mem_cons] at hmem ⊢
          rcases hmem with h | h
          · exact Or.inl h
          · exact Or.inr (Or.inr h)
        · intro z hz
          simp only [List.take_succ_cons, List.mem_cons] at hz
          have hxm : cle c x m := hmax x (by simp)
          rcases hz with h | h | h
          · exact h ▸ hxm
          · exact h ▸ htr y x m (cle_of_pos hs hxy) hxm
          · exact hmax z (by simp [h])
      · rename_i hxy
        obtain ⟨m, hm, hmem, hmax⟩ := ih (y :: rest) (by simpa using hk')
        refine ⟨m, by simpa using hm, ?_, ?_⟩
        · simp only [List.take_succ_cons, List.mem_cons] at hmem ⊢
          rcases hmem with h | h
          · exact Or.inr (Or.inl h)
          · exact Or.inr (Or.inr h)
        · intro z hz
          simp only [List.take_succ_cons, List.mem_cons] at hz
          have hym : cle c y m := hmax y (by simp)
          rcases hz with h | h | h
          · exact h ▸ htr x y m (cle_of_not_pos hxy) hym
          · exact h ▸ hym
          · exact hmax z (by simp [h])

theorem bubble_iter_sorted (hs : CmpSign c) (htr : CmpTrans c) :
    ∀ (b : Nat) (l : List α), b < l.length →
      (∀ x ∈ l.take (b + 1), ∀ y ∈ l.drop (b + 1), cle c x y) →
      (l.drop (b + 1)).Pairwise (cle c) →
      (bubble_iter c b l).Pairwise (cle c) ∧ bubble_iter c b l ~ l := by
  intro b
  induction b with
  | zero =>
    intro l hb h1 h2
    match l with
    | [] => simp at hb
    | a :: l' =>
      refine ⟨?_, by simp [bubble_iter]⟩
      simp only [bubble_iter]
      rw [List.pairwise_cons]
      exact ⟨fun y hy => h1 a (by simp) y (by simpa using hy), by simpa using h2⟩
  | succ b ih =>
    intro l hb h1 h2
    simp only [bubble_iter]
    set l' := bubble_pass c (b + 1) l with hl'
    have hplen : l'.length = l.length := bubble_pass_length (b + 1) l
    have hpperm : l' ~ l := bubble_pass_perm (b + 1) l
    have hpdrop : l'.drop (b + 2) = l.drop (b + 2) := bubble_pass_drop (b + 1) l
    have hptake : l'.take (b + 2) ~ l.take (b + 2) := bubble_pass_take_perm (b + 1) l
    obtain ⟨m, hm, hmem, hmax⟩ := bubble_pass_max hs htr (b + 1) l hb
    have hm' : b + 1 < l'.length := by omega
    have hdecomp : l'.drop (b + 1) = m :: l.drop (b + 2) := by
      rw [List.drop_eq_getElem_cons hm']
      rw [List.getElem?_eq_getElem hm'] at hm
      have hgm : l'[b + 1] = m := by
        injection hm
      rw [hgm, hpdrop]
    have hmem_take : ∀ x ∈ l'.take (b + 1), x ∈ l.take (b + 2) := by
      intro x hx
      have hx2 : x ∈ l'.take (b + 2) := by
        have hsub : l'.take (b + 1) ⊆ l'.take (b + 2) := by
          have heq : l'.take (b + 1) = (l'.take (b + 2)).take (b + 1) := by
            rw [List.take_take]
            congr 1
            omega
          rw [heq]
          exact List.take_subset _ _
        exact hsub hx
      exact hptake.mem_iff.mp hx2
    have h1' : ∀ x ∈ l'.take (b + 1), ∀ y ∈ l'.drop (b + 1), cle c x y := by
      intro x hx y hy
      rw [hdecomp] at hy
      rcases List.mem_cons.mp hy with h | h
      · exact h ▸ hmax x (hmem_take x hx)
      · exact h1 x (hmem_take x hx) y (by simpa using h)
    have h2' : (l'.drop (b + 1)).Pairwise (cle c) := by
      rw [hdecomp, List.pairwise_cons]
      exact ⟨fun y hy => h1 m hmem y (by simpa using hy), by simpa using h2⟩
    obtain ⟨hsorted, hperm⟩ := ih l' (by omega) h1' h2'
    exact ⟨hsorted, hperm.trans hpperm⟩

theorem bubble_sort_sorted_perm (hs : CmpSign c) (htr : CmpTrans c)
    (l : List α) :
    (bubble_sort c l).Pairwise (cle c) ∧ bubble_sort c l ~ l := by
  match l with
  | [] => exact ⟨List.Pairwise.nil, List.Perm.refl _⟩
  | a :: l' =>
    apply bubble_iter_sorted hs htr ((a :: l').length - 1) (a :: l')
    · simp
    · intro x _ y hy
      rw [List.drop_eq_nil_of_le (by simp)] at hy
      simp at hy
    · rw [List.drop_eq_nil_of_le (by simp)]
      exact List.Pairwise.nil

/-! ### Insertion sort -/

/-- Unfolding equation for `insert_from_right` on a list with a last
element. -/
theorem insert_from_right_concat (key a : α) (l : List α) :
    insert_from_right c key (l ++ [a])
      = if 0 < c a key then insert_from_right c key l ++ [a]
        else (l ++ [a]) ++ [key] := by
  match l with
  | [] =>
    show insert_from_right c key [a] = _
    unfold insert_from_right
    simp [insert_from_right]
  | y :: ys =>
    show insert_from_right c key (y :: (ys ++ [a])) = _
    conv_lhs => unfold insert_from_right
    simp only [show y :: (ys ++ [a]) = (y :: ys) ++ [a] from rfl,
      List.getLast_concat, List.dropLast_concat]

theorem insert_from_right_perm (key : α) (l : List α) :
    insert_from_right c key l ~ key :: l := by
  induction l using List.reverseRecOn with
  | nil => simp [insert_from_right]
  | append_singleton l a ih =>
    rw [insert_from_right_concat]
    split
    · simpa using ih.append_right [a]
    · exact List.perm_append_singleton key (l ++ [a])

theorem insert_from_right_sorted (hs : CmpSign c) (htr : CmpTrans c) (key : α)
    (l : List α) (hl : l.Pairwise (cle c)) :
    (insert_from_right c key l).Pairwise (cle c) := by
  induction l using List.reverseRecOn with
  | nil => simp [insert_from_right]
  | append_singleton l a ih =>
    have hl0 := hl
    rw [List.pairwise_append] at hl
    obtain ⟨hpl, _, hcross⟩ := hl
    rw [insert_from_right_concat]
    split
    · rename_i hpos
      rw [List.pairwise_append]
      refine ⟨ih hpl, by simp, ?_⟩
      intro x hx b hb
      simp only [List.mem_singleton] at hb
      subst hb
      have hx' : x ∈ key :: l := (insert_from_right_perm key l).mem_iff.mp hx
      rcases List.mem_cons.mp hx' with h | h
      · exact h ▸ cle_of_pos hs hpos
      · exact hcross x h b (by simp)
    · rename_i hneg
      rw [List.pairwise_append]
      refine ⟨hl0, by simp, ?_⟩
      intro x hx b hb
      simp only [List.mem_singleton] at hb
      subst hb
      have hak : cle c a b := cle_of_not_pos hneg
      rcases List.mem_append.mp hx with h | h
      · exact htr x a b (hcross x h a (by simp)) hak
      · have hxa : x = a := by simpa using h
        exact hxa ▸ hak

theorem insertion_sort_sorted_perm (hs : CmpSign c) (htr : CmpTrans c)
    (l : List α) :
    (insertion_sort c l).Pairwise (cle c) ∧ insertion_sort c l ~ l := by
  suffices h : ∀ (l acc : List α), acc.Pairwise (cle c) →
      (l.foldl (fun acc key => insert_from_right c key acc) acc).Pairwise (cle c)
      ∧ l.foldl (fun acc key => insert_from_right c key acc) acc ~ acc ++ l by
    have h2 := h l [] List.Pairwise.nil
    exact ⟨h2.1, by simpa using h2.2⟩
  intro l
  induction l with
  | nil =>
    intro acc hacc
    exact ⟨hacc, by simp⟩
  | cons x xs ih =>
    intro acc hacc
    simp only [List.foldl_cons]
    obtain ⟨hS, hP⟩ := ih (insert_from_right c x acc)
      (insert_from_right_sorted hs htr x acc hacc)
    refine ⟨hS, ?_⟩
    calc xs.foldl (fun acc key => insert_from_right c key acc)
          (insert_from_right c x acc)
        ~ insert_from_right c x acc ++ xs := hP
      _ ~ (x :: acc) ++ xs := (insert_from_right_perm x acc).append_right xs
      _ = x :: (acc ++ xs) := rfl
      _ ~ acc ++ x :: xs := List.perm_middle.symm

/-! ### Selection sort -/

theorem sel_min_spec (hs : CmpSign c) (htr : CmpTrans c) :
    ∀ (ys : List α) (m : α) (j mi : Nat),
      (cle c (sel_min c ys m j mi).2 m
        ∧ ∀ y ∈ ys, cle c (sel_min c ys m j mi).2 y)
      ∧ ((sel_min c ys m j mi).1 = mi ∧ (sel_min c ys m j mi).2 = m
        ∨ ∃ i, i < ys.length ∧ ys[i]? = some (sel_min c ys m j mi).2
            ∧ (sel_min c ys m j mi).1 = j + 1 + i) := by
  intro ys
  induction ys with
  | nil =>
    intro m j mi
    exact ⟨⟨cle_refl hs m, by simp⟩, Or.inl ⟨rfl, rfl⟩⟩
  | cons y ys ih =>
    intro m j mi
    simp only [sel_min]
    split
    · rename_i hlt
      obtain ⟨⟨hm1, hm2⟩, hidx⟩ := ih y (j + 1) (j + 1)
      refine ⟨⟨htr _ y m hm1 (cle_of_lt hlt), ?_⟩, ?_⟩
      · intro z hz
        rcases List.mem_cons.mp hz with h | h
        · exact h ▸ hm1
        · exact hm2 z h
      · rcases hidx with ⟨h1, h2⟩ | ⟨i, hi, hgi, hji⟩
        · exact Or.inr ⟨0, by simp, by simp [h2], by omega⟩
        · refine Or.inr ⟨i + 1, by simp only [List.length_cons]; omega,
            by simpa using hgi, by omega⟩
    · rename_i hge
      obtain ⟨⟨hm1, hm2⟩, hidx⟩ := ih m (j + 1) mi
      refine ⟨⟨hm1, ?_⟩, ?_⟩
      · intro z hz
        rcases List.mem_cons.mp hz with h | h
        · exact h ▸ htr _ m y hm1 (cle_of_not_lt hs hge)
        · exact hm2 z h
      · rcases hidx with ⟨h1, h2⟩ | ⟨i, hi, hgi, hji⟩
        · exact Or.inl ⟨h1, h2⟩
        · refine Or.inr ⟨i + 1, by simp only [List.length_cons]; omega,
            by simpa using hgi, by omega⟩

theorem selection_step_spec (hs : CmpSign c) (htr : CmpTrans c) (x : α)
    (xs : List α) :
    (∀ y ∈ x :: xs, cle c (selection_step c x xs).1 y)
    ∧ x :: xs ~ (selection_step c x xs).1 :: (selection_step c x xs).2
    ∧ (selection_step c x xs).2.length = xs.length := by
  obtain ⟨⟨hm1, hm2⟩, hidx⟩ := sel_min_spec hs htr xs x 0 0
  by_cases h0 : (sel_min c xs x 0 0).1 = 0
  · have hx : (sel_min c xs x 0 0).2 = x := by
      rcases hidx with ⟨_, h2⟩ | ⟨i, _, _, hji⟩
      · exact h2
      · omega
    have hstep : selection_step c x xs = (x, xs) := by
      unfold selection_step
      simp [h0, hx]
    rw [hstep]
    refine ⟨?_, List.Perm.refl _, rfl⟩
    intro y hy
    rcases List.mem_cons.mp hy with h | h
    · exact h ▸ cle_refl hs x
    · exact hx ▸ hm2 y h
  · rcases hidx with ⟨h1, _⟩ | ⟨i, hi, hgi, hji⟩
    · exact absurd h1 h0
    have hstep : selection_step c x xs
        = ((sel_min c xs x 0 0).2, xs.set ((sel_min c xs x 0 0).1 - 1) x) := by
      unfold selection_step
      simp [h0]
    have hidx1 : (sel_min c xs x 0 0).1 - 1 = i := by omega
    have hxi : xs[i] = (sel_min c xs x 0 0).2 := by
      rw [List.getElem?_eq_getElem hi] at hgi
      injection hgi
    have hdecomp : xs = xs.take i ++ xs[i] :: xs.drop (i + 1) := by
      conv_lhs => rw [← List.take_append_drop i xs]
      rw [List.drop_eq_getElem_cons hi]
    have hset : xs.set i x = xs.take i ++ x :: xs.drop (i + 1) := by
      rw [List.set_eq_take_append_cons_drop]
      rw [if_pos hi]
    rw [hstep, hidx1]
    refine ⟨?_, ?_, by simp⟩
    · intro y hy
      rcases List.mem_cons.mp hy with h | h
      · exact h ▸ hm1
      · exact hm2 y h
    · rw [hset]
      conv_lhs => rw [hdecomp, hxi]
      calc x :: (xs.take i ++ (sel_min c xs x 0 0).2 :: xs.drop (i + 1))
          ~ x :: ((sel_min c xs x 0 0).2 :: (xs.take i ++ xs.drop (i + 1))) :=
            (List.perm_middle).cons x
        _ ~ (sel_min c xs x 0 0).2 :: x :: (xs.take i ++ xs.drop (i + 1)) :=
            List.Perm.swap _ _ _
        _ ~ (sel_min c xs x 0 0).2 :: (xs.take i ++ x :: xs.drop (i + 1)) :=
            (List.perm_middle.symm).cons _

theorem selection_sort_aux_sorted_perm (hs : CmpSign c) (htr : CmpTrans c) :
    ∀ (fuel : Nat) (l : List α), l.length ≤ fuel + 1 →
      (selection_sort_aux c fuel l).Pairwise (cle c)
      ∧ selection_sort_aux c fuel l ~ l := by
  intro fuel
  induction fuel with
  | zero =>
    intro l hl
    match l with
    | [] => exact ⟨List.Pairwise.nil, List.Perm.refl _⟩
    | [a] => exact ⟨by simp [selection_sort_aux], List.Perm.refl _⟩
    | a :: b :: t => simp at hl
  | succ fuel ih =>
    intro l hl
    match l with
    | [] =>
      exact ⟨List.Pairwise.nil, List.Perm.refl _⟩
    | x :: xs =>
      obtain ⟨hmin, hperm, hlen⟩ := selection_step_spec hs htr x xs
      have hl2 : (selection_step c x xs).2.length ≤ fuel + 1 := by
        rw [hlen]
        simpa using hl
      obtain ⟨hS, hP⟩ := ih (selection_step c x xs).2 hl2
      have hunf : selection_sort_aux c (fuel + 1) (x :: xs)
          = (selection_step c x xs).1
            :: selection_sort_aux c fuel (selection_step c x xs).2 := rfl
      rw [hunf]
      constructor
      · rw [List.pairwise_cons]
        refine ⟨?_, hS⟩
        intro y hy
        have hy2 : y ∈ (selection_step c x xs).1 :: (selection_step c x xs).2 :=
          List.mem_cons_of_mem _ (hP.mem_iff.mp hy)
        exact hmin y (hperm.mem_iff.mpr hy2)
      · calc (selection_step c x xs).1
              :: selection_sort_aux c fuel (selection_step c x xs).2
            ~ (selection_step c x xs).1 :: (selection_step c x xs).2 :=
              hP.cons _
          _ ~ x :: xs := hperm.symm

theorem selection_sort_sorted_perm (hs : CmpSign c) (htr : CmpTrans c)
    (l : List α) :
    (selection_sort c l).Pairwise (cle c) ∧ selection_sort c l ~ l :=
  selection_sort_aux_sorted_perm hs htr (l.length - 1) l (by omega)

/-! ### Quicksort (spec-modelled, for the QSORT strategy) -/

theorem qsort_model_sorted_perm (hs : CmpSign c) (htr : CmpTrans c)
    (l : List α) :
    (qsort_model c l).Pairwise (cle c) ∧ qsort_model c l ~ l := by
  suffices h : ∀ (n : Nat) (l : List α), l.length = n →
      (qsort_model c l).Pairwise (cle c) ∧ qsort_model c l ~ l from
    h l.length l rfl
  intro n
  induction n using Nat.strong_induction_on with
  | _ n ih =>
    intro l hn
    match l with
    | [] => simp [qsort_model]
    | x :: xs =>
      subst hn
      have hlen1 : (xs.filter fun y => decide (c y x ≤ 0)).length
          < (x :: xs).length := Nat.lt_succ_of_le (xs.length_filter_le _)
      have hlen2 : (xs.filter fun y => !decide (c y x ≤ 0)).length
          < (x :: xs).length := Nat.lt_succ_of_le (xs.length_filter_le _)
      obtain ⟨hS1, hP1⟩ := ih _ hlen1 _ rfl
      obtain ⟨hS2, hP2⟩ := ih _ hlen2 _ rfl

      have hunf : qsort_model c (x :: xs)
          = qsort_model c (xs.filter fun y => decide (c y x ≤ 0))
            ++ x :: qsort_model c (xs.filter fun y => !decide (c y x ≤ 0)) := by
        simp [qsort_model]
      rw [hunf]
      constructor
      · rw [List.pairwise_append]
        refine ⟨hS1, ?_, ?_⟩
        · rw [List.pairwise_cons]
          refine ⟨?_, hS2⟩
          intro y hy
          have hy' : y ∈ xs.filter fun y => !decide (c y x ≤ 0) :=
            hP2.mem_iff.mp hy
          exact cle_of_pos hs (by simpa using (List.mem_filter.mp hy').2)
        · intro a ha b hb
          have ha' : a ∈ xs.filter fun y => decide (c y x ≤ 0) :=
            hP1.mem_iff.mp ha
          have hax : cle c a x := by simpa using (List.mem_filter.mp ha').2
          rcases List.mem_cons.mp hb with h | h
          · exact h ▸ hax
          · have hb' : b ∈ xs.filter fun y => !decide (c y x ≤ 0) :=
              hP2.mem_iff.mp h
            have hxb : cle c x b :=
              cle_of_pos hs (by simpa using (List.mem_filter.mp hb').2)
            exact htr a x b hax hxb
      · calc qsort_model c (xs.filter fun y => decide (c y x ≤ 0))
              ++ x :: qsort_model c (xs.filter fun y => !decide (c y x ≤ 0))
            ~ (xs.filter fun y => decide (c y x ≤ 0))
              ++ x :: (xs.filter fun y => !decide (c y x ≤ 0)) :=
              hP1.append (hP2.cons x)
          _ ~ x :: ((xs.filter fun y => decide (c y x ≤ 0))
              ++ xs.filter fun y => !decide (c y x ≤ 0)) := List.perm_middle
          _ ~ x :: xs := (List.filter_append_perm _ xs).cons x

/-- Every strategy returns a sorted permutation of its input. -/
theorem sort_data_sorted_perm (hs : CmpSign c) (htr : CmpTrans c)
    (m : SORT_METHOD) (l : List α) :
    (sort_data m c l).Pairwise (cle c) ∧ sort_data m c l ~ l := by
  cases m with
  | QSORT => exact qsort_model_sorted_perm hs htr l
  | BUBBLE_SORT => exact bubble_sort_sorted_perm hs htr l
  | INSERTION_SORT => exact insertion_sort_sorted_perm hs htr l
  | SELECTION_SORT => exact selection_sort_sorted_perm hs htr l

/-- When comparator ties are equalities, all four strategies produce the same
list. -/
theorem sort_data_unique (hs : CmpSign c) (htr : CmpTrans c)
    (hanti : CmpAntisymm c) (m₁ m₂ : SORT_METHOD) (l : List α) :
    sort_data m₁ c l = sort_data m₂ c l := by
  haveI : IsAntisymm α (cle c) := ⟨fun a b => hanti a b⟩
  obtain ⟨h1s, h1p⟩ := sort_data_sorted_perm hs htr m₁ l
  obtain ⟨h2s, h2p⟩ := sort_data_sorted_perm hs htr m₂ l
  exact List.eq_of_perm_of_sorted (h1p.trans h2p.symm) h1s h2s

/-- C6: for every non-empty container and every total comparator (the compare
capability, or a per-call override which takes precedence), sorting with each
of the four strategies — library quicksort (spec-modelled), bubble sort,
insertion sort, selection sort — replaces the buffer with a permutation of
the previous elements in non-decreasing order under that comparator, and
(the comparator's ties being equalities) all four strategies produce the same
total order. -/
theorem sort_strategies_sorted_permutation (s : JARRAY α) (c : α → α → Int)
    (custom : Option (α → α → Int)) (t : ErrorTrace) (hs : CmpSign c)
    (htr : CmpTrans c) (hanti : CmpAntisymm c) (hne : s._length ≠ 0)
    (heff : custom = some c
      ∨ (custom = none ∧ s.user_callbacks.compare = some c)) :
    ∀ m : SORT_METHOD,
      array_sort true (some s) m custom t
        = (some { s with _data := some (sort_data m c s.elems) },
           reset_error_trace)
      ∧ sort_data m c s.elems ~ s.elems
      ∧ (sort_data m c s.elems).Pairwise (cle c)
      ∧ ∀ m' : SORT_METHOD,
          sort_data m c s.elems = sort_data m' c s.elems := by
  intro m
  have hcomp : (custom.orElse fun _ => s.user_callbacks.compare) = some c := by
    rcases heff with h | ⟨h1, h2⟩
    · simp [h]
    · simp [h1, h2]
  obtain ⟨hS, hP⟩ := sort_data_sorted_perm hs htr m s.elems
  refine ⟨?_, hP, hS, fun m' => sort_data_unique hs htr hanti m m' s.elems⟩
  simp only [array_sort]
  rw [if_neg hne, hcomp]
  rfl

theorem sort_strategies_sorted_permutation_witness :
    array_sort true (some (mkIntArray [5, 3, 3, 1, 4] 5 0)) .BUBBLE_SORT none
        reset_error_trace
      = (some { mkIntArray [5, 3, 3, 1, 4] 5 0 with
            _data := some (sort_data .BUBBLE_SORT intCmp
              (mkIntArray [5, 3, 3, 1, 4] 5 0).elems) },
         reset_error_trace)
    ∧ sort_data .BUBBLE_SORT intCmp (mkIntArray [5, 3, 3, 1, 4] 5 0).elems
        ~ (mkIntArray [5, 3, 3, 1, 4] 5 0).elems
    ∧ (sort_data .BUBBLE_SORT intCmp
        (mkIntArray [5, 3, 3, 1, 4] 5 0).elems).Pairwise (cle intCmp)
    ∧ sort_data .BUBBLE_SORT intCmp (mkIntArray [5, 3, 3, 1, 4] 5 0).elems
        = sort_data .QSORT intCmp (mkIntArray [5, 3, 3, 1, 4] 5 0).elems
    ∧ sort_data .BUBBLE_SORT intCmp (mkIntArray [5, 3, 3, 1, 4] 5 0).elems
        = sort_data .INSERTION_SORT intCmp
            (mkIntArray [5, 3, 3, 1, 4] 5 0).elems
    ∧ sort_data .BUBBLE_SORT intCmp (mkIntArray [5, 3, 3, 1, 4] 5 0).elems
        = sort_data .SELECTION_SORT intCmp
            (mkIntArray [5, 3, 3, 1, 4] 5 0).elems := by
  have h := sort_strategies_sorted_permutation
    (mkIntArray [5, 3, 3, 1, 4] 5 0) intCmp none reset_error_trace
    (fun a b => by simp only [intCmp]; omega)
    (fun a b d h1 h2 => by simp only [intCmp, cle] at h1 h2 ⊢; omega)
    (fun a b h1 h2 => by simp only [intCmp, cle] at h1 h2; omega)
    (by decide)
    (Or.inr ⟨rfl, rfl⟩)
    .BUBBLE_SORT
  exact ⟨h.1, h.2.1, h.2.2.1, h.2.2.2 .QSORT, h.2.2.2 .INSERTION_SORT,
    h.2.2.2 .SELECTION_SORT⟩

end SortCorrectness

end JArraySpec
